import Mathlib

/-!
Formal model of the `Fairwest-meter-reading` repository.

The migration runner (`src/Flask-app/migrations/migrate.py`,
`apply_migrations`) is embedded as a state-passing function.  The SQL
back end is abstract: a database content state `σ` together with an
execution function `exec : String → σ → Option σ` (`none` = the
statement raises `psycopg2.Error`).  Transactions are modelled by the
runner keeping the committed state and discarding the in-transaction
state on rollback, exactly as `conn.rollback()` restores the state of
the last `conn.commit()`.  A trace records every script statement
passed to `cursor.execute`, in order, including a statement that
fails.  For claims that need observable effects the state is
instantiated with a log of successfully committed statements
(`logExec`).

The admin route handlers (`src/Flask-app/admin/routes.py`) are embedded
as functions from the session (and request data) to the list of SQL
operations they issue plus their response.
-/

deriving instance DecidableEq for Except

/-- A migration script file: its filename and its textual body. -/
structure MigrationFile where
  name : String
  body : String
deriving DecidableEq

/-- Python `str.split(sep)` for a one-character separator, acting on the
character list of the string: splits at every occurrence of the
separator; adjacent separators produce empty fragments and the empty
string yields one empty fragment (`''.split(sep) == ['']`). -/
def pySplit (sep : Char) : List Char → List (List Char)
  | [] => [[]]
  | c :: cs =>
    if c = sep then [] :: pySplit sep cs
    else
      match pySplit sep cs with
      | [] => [[c]]
      | t :: ts => (c :: t) :: ts

/-- The whitespace set of Python `str.strip()`. -/
def isPyWs (c : Char) : Bool :=
  c == ' ' || c == '\t' || c == '\n' || c == '\r' || c == '\x0b' || c == '\x0c'

/-- Python `str.strip()` on a character list: drop leading and trailing
whitespace. -/
def pyStrip (l : List Char) : List Char :=
  ((l.dropWhile isPyWs).reverse.dropWhile isPyWs).reverse

/-- Version token of a migration filename: `filename.split('_')[0]`
(migrate.py line 74). -/
def versionOf (name : String) : String :=
  String.mk ((pySplit '_' name.data).headD [])

/-- Statement list of a script body:
`[cmd.strip() for cmd in sql_script.split(';') if cmd.strip()]`
(migrate.py line 89). -/
def splitStatements (body : String) : List String :=
  ((pySplit ';' body.data).map (fun l => String.mk (pyStrip l))).filter
    (fun s => s ≠ "")

/-- The observable state of one migration run over database content
state `σ`: the committed content, the committed `applied_migrations`
ledger (list of `version` values in insertion order), and the trace of
script statements passed to `cursor.execute` so far. -/
structure RunState (σ : Type) where
  db : σ
  ledger : List String
  executed : List String
deriving DecidableEq

/-- Outcome of executing the statements of one script inside the open
transaction. -/
inductive StmtsResult (σ : Type) where
  | ok (s : σ)
  | failed (stmt : String)
deriving DecidableEq

/-- The inner `for command in sql_commands` loop of `apply_migrations`
(migrate.py lines 91-100): execute each non-empty command in turn
against the in-transaction state; on the first failure stop.  Returns
the trace of commands passed to `cursor.execute` (the failing command
included, since `cursor.execute` is what raises) and the outcome. -/
def runStmts {σ : Type} (exec : String → σ → Option σ) :
    List String → σ → List String × StmtsResult σ
  | [], s => ([], .ok s)
  | c :: cs, s =>
    if c = "" then runStmts exec cs s
    else
      match exec c s with
      | none => ([c], .failed c)
      | some s₁ =>
        let p := runStmts exec cs s₁
        (c :: p.1, p.2)

/-- The error with which `apply_migrations` terminates, carrying the
name of the offending script, and the run state after the rollback
(the state the database is left in when the exception propagates). -/
inductive MigError (σ : Type) where
  | stmtFailed (file : String) (stmt : String) (st : RunState σ)
  | duplicateVersion (file : String) (st : RunState σ)
deriving DecidableEq

/-- One iteration of the `for filename in migration_files` loop of
`apply_migrations` (migrate.py lines 73-104): skip when the version is
in the applied set read at the start of the run; otherwise run the
script's statements in a transaction, roll back and abort on a
statement failure, and on success insert the ledger row (which fails
on a duplicate version, the column being UNIQUE) and commit. -/
def processFile {σ : Type} (exec : String → σ → Option σ)
    (applied : List String) (st : RunState σ) (f : MigrationFile) :
    Except (MigError σ) (RunState σ) :=
  if versionOf f.name ∈ applied then
    .ok st
  else
    match runStmts exec (splitStatements f.body) st.db with
    | (tr, .failed c) =>
      .error (.stmtFailed f.name c
        { db := st.db, ledger := st.ledger, executed := st.executed ++ tr })
    | (tr, .ok s₁) =>
      if versionOf f.name ∈ st.ledger then
        .error (.duplicateVersion f.name
          { db := st.db, ledger := st.ledger, executed := st.executed ++ tr })
      else
        .ok { db := s₁, ledger := st.ledger ++ [versionOf f.name],
              executed := st.executed ++ tr }

/-- The outer loop of `apply_migrations`: process the files in order,
halting on the first error (the re-raised exception aborts the run). -/
def runFiles {σ : Type} (exec : String → σ → Option σ)
    (applied : List String) :
    List MigrationFile → RunState σ → Except (MigError σ) (RunState σ)
  | [], st => .ok st
  | f :: fs, st =>
    match processFile exec applied st f with
    | .error e => .error e
    | .ok st₁ => runFiles exec applied fs st₁

/-- Python string comparison `a <= b`: lexicographic by code point. -/
def pyStrLe : List Char → List Char → Bool
  | [], _ => true
  | _ :: _, [] => false
  | a :: as, b :: bs => if a = b then pyStrLe as bs else decide (a < b)

/-- Python string comparison `a < b`: lexicographic by code point. -/
def pyStrLt : List Char → List Char → Bool
  | [], [] => false
  | [], _ :: _ => true
  | _ :: _, [] => false
  | a :: as, b :: bs => if a = b then pyStrLt as bs else decide (a < b)

/-- Filename order used by the runner (Python `sorted` compares the
filename strings). -/
def fileLe (a b : MigrationFile) : Prop :=
  pyStrLe a.name.data b.name.data = true

instance : DecidableRel fileLe := fun a b =>
  inferInstanceAs (Decidable (pyStrLe a.name.data b.name.data = true))

/-- Strict filename order. -/
def fileLt (a b : MigrationFile) : Prop :=
  pyStrLt a.name.data b.name.data = true

/-- Python `f.endswith('.sql')` on the character list of the
filename. -/
def isSqlFile (f : MigrationFile) : Bool :=
  List.isSuffixOf ".sql".data f.name.data

/-- The migration files the runner processes, in the order it processes
them: `sorted([f for f in os.listdir(migrations_dir) if
f.endswith('.sql')])` (migrate.py line 70).  Python `sorted` is a
stable ascending sort, modelled by insertion sort. -/
def sortFiles (listing : List MigrationFile) : List MigrationFile :=
  List.insertionSort fileLe (listing.filter isSqlFile)

/-- `apply_migrations` (migrate.py lines 44-104), given the directory
listing, the initial database content and the initial ledger: ensure
the ledger table exists (abstracted: the ledger list is the table),
read the applied versions, and process the sorted `.sql` files. -/
def apply_migrations {σ : Type} (exec : String → σ → Option σ)
    (listing : List MigrationFile) (init : σ) (ledger₀ : List String) :
    Except (MigError σ) (RunState σ) :=
  runFiles exec ledger₀ (sortFiles listing) ⟨init, ledger₀, []⟩

/-- Logging database semantics used for concrete scenarios: the content
state is the list of successfully committed statements, a statement
fails exactly when the `fails` oracle says so, and a successful
statement appends itself to the content. -/
def logExec (fails : String → Bool) (c : String) (s : List String) :
    Option (List String) :=
  if fails c then none else some (s ++ [c])

/-- The database state in which a run leaves the system, on both the
success and the failure path. -/
def stateOf {σ : Type} : Except (MigError σ) (RunState σ) → RunState σ
  | .ok st => st
  | .error (.stmtFailed _ _ st) => st
  | .error (.duplicateVersion _ st) => st

/-- Exit code of the `if __name__ == '__main__'` block of migrate.py
(lines 122-129): 0 when `apply_migrations` returns, 1 (via `exit(1)`)
when it raises. -/
def migrateMainExit {σ : Type} (r : Except (MigError σ) (RunState σ)) : Nat :=
  match r with
  | .ok _ => 0
  | .error _ => 1

/-- The parts of the Flask session the admin routes read: `session`
may or may not hold a `user_id`, and `session.get('is_admin')` yields
the stored flag or `None`. -/
structure Session where
  user_id : Option Nat
  is_admin : Option Bool
deriving DecidableEq

/-- Python truthiness of `session.get('is_admin')`: `None` and `False`
are falsy. -/
def truthy (o : Option Bool) : Bool := o.getD false

/-- The guard shared by every admin route:
`'user_id' not in session or not session.get('is_admin')`. -/
def notAdmin (s : Session) : Bool := s.user_id.isNone || !truthy s.is_admin

/-- Responses the admin routes produce. -/
inductive Response where
  | redirect (endpoint : String)
  | page (template : String)
  | csvFile (filename : String)
deriving DecidableEq

/-- Result of one request: the SQL operations issued against the
database, in order, and the response returned. -/
structure RouteResult where
  dbOps : List String
  response : Response
deriving DecidableEq

/-- `admin_dashboard` (routes.py lines 17-23): guard, then render the
dashboard template with no database access. -/
def admin_dashboard (s : Session) : RouteResult :=
  if notAdmin s then ⟨[], .redirect "main.login"⟩
  else ⟨[], .page "dashboard/admin.html"⟩

/-- `manage_users` (routes.py lines 25-46): guard, then query the users
table and render. -/
def manage_users (s : Session) : RouteResult :=
  if notAdmin s then ⟨[], .redirect "main.login"⟩
  else ⟨["SELECT id, username, email, unit_number, created_at FROM users"],
        .page "admin_users.html"⟩

/-- `admin_history` (routes.py lines 48-110): guard, then query the
readings joined with users, with a date filter when both month and
year query parameters are present. -/
def admin_history (s : Session) (month year : Option Nat) : RouteResult :=
  if notAdmin s then ⟨[], .redirect "main.login"⟩
  else if month.isSome && year.isSome then
    ⟨["SELECT mr.id, mr.reading, mr.notes, mr.created_at, u.username, u.unit_number FROM meter_readings mr JOIN users u ON mr.user_id = u.id WHERE mr.created_at BETWEEN %s AND %s"],
     .page "admin_history.html"⟩
  else
    ⟨["SELECT mr.id, mr.reading, mr.notes, mr.created_at, u.username, u.unit_number FROM meter_readings mr JOIN users u ON mr.user_id = u.id"],
     .page "admin_history.html"⟩

/-- `unit_pincode` (routes.py lines 112-159): guard, then on POST
insert the pincode when the unit does not exist yet and redirect, on
GET list the pincodes.  `existing` abstracts the result of the
existence check `SELECT id FROM unit_pincode WHERE unit_number = %s`. -/
def unit_pincode (s : Session) (isPost : Bool)
    (unit_number pin_code : Option String) (existing : Bool) : RouteResult :=
  if notAdmin s then ⟨[], .redirect "main.login"⟩
  else if isPost then
    if unit_number.isNone || pin_code.isNone then
      ⟨["SELECT * FROM unit_pincode ORDER BY unit_number"],
       .page "unit_pincode.html"⟩
    else if existing then
      ⟨["SELECT id FROM unit_pincode WHERE unit_number = %s"],
       .redirect "admin.unit_pincode"⟩
    else
      ⟨["SELECT id FROM unit_pincode WHERE unit_number = %s",
        "INSERT INTO unit_pincode (unit_number, pin_code) VALUES (%s, %s)"],
       .redirect "admin.unit_pincode"⟩
  else
    ⟨["SELECT * FROM unit_pincode ORDER BY unit_number"],
     .page "unit_pincode.html"⟩

/-- `download_readings` (routes.py lines 161-210): guard, then query
all readings and return them as a CSV attachment. -/
def download_readings (s : Session) : RouteResult :=
  if notAdmin s then ⟨[], .redirect "main.login"⟩
  else ⟨["SELECT mr.created_at, u.username, u.unit_number, mr.reading, mr.notes FROM meter_readings mr JOIN users u ON mr.user_id = u.id"],
        .csvFile "meter_readings.csv"⟩

/-! ### Lemmas about the string primitives -/

theorem pySplit_ne_nil (sep : Char) : ∀ l : List Char, pySplit sep l ≠ []
  | [] => by simp [pySplit]
  | c :: cs => by
    simp only [pySplit]
    by_cases h : c = sep
    · simp [h]
    · rw [if_neg h]
      cases hq : pySplit sep cs with
      | nil => simp
      | cons t ts => simp

theorem pySplit_headD (sep : Char) : ∀ l : List Char,
    (pySplit sep l).headD [] = l.takeWhile (fun c => c != sep)
  | [] => by simp [pySplit]
  | c :: cs => by
    simp only [pySplit, List.takeWhile]
    by_cases h : c = sep
    · simp [h]
    · rw [if_neg h]
      cases hq : pySplit sep cs with
      | nil => exact absurd hq (pySplit_ne_nil sep cs)
      | cons t ts =>
        have ih := pySplit_headD sep cs
        rw [hq] at ih
        simp only [List.headD_cons] at ih
        have hb : (c != sep) = true := by simpa using h
        simp [ih, hb]

theorem stringMk_data : ∀ s : String, String.mk s.data = s
  | ⟨_⟩ => rfl

theorem string_data_ne {a b : String} (h : a ≠ b) : a.data ≠ b.data := by
  intro hd
  exact h (by rw [← stringMk_data a, ← stringMk_data b, hd])

theorem splitStatements_ne_empty {b c : String}
    (h : c ∈ splitStatements b) : c ≠ "" := by
  unfold splitStatements at h
  have hp := List.of_mem_filter h
  simpa using hp

/-! ### Lemmas about the lexicographic filename order -/

theorem pyStrLe_total : ∀ a b : List Char,
    pyStrLe a b = true ∨ pyStrLe b a = true
  | [], _ => Or.inl (by simp [pyStrLe])
  | _ :: _, [] => Or.inr (by simp [pyStrLe])
  | a :: as, b :: bs => by
    by_cases h : a = b
    · subst h
      rcases pyStrLe_total as bs with h1 | h1
      · exact Or.inl (by simp [pyStrLe, h1])
      · exact Or.inr (by simp [pyStrLe, h1])
    · rcases lt_or_gt_of_ne h with hlt | hgt
      · exact Or.inl (by simp [pyStrLe, h, hlt])
      · exact Or.inr (by simp [pyStrLe, Ne.symm h, hgt])

theorem pyStrLe_trans : ∀ {a b c : List Char},
    pyStrLe a b = true → pyStrLe b c = true → pyStrLe a c = true
  | [], _, _, _, _ => by simp [pyStrLe]
  | _ :: _, [], _, h1, _ => by simp [pyStrLe] at h1
  | _ :: _, _ :: _, [], _, h2 => by simp [pyStrLe] at h2
  | a :: as, b :: bs, c :: cs, h1, h2 => by
    simp only [pyStrLe] at h1 h2 ⊢
    by_cases hab : a = b
    · subst hab
      rw [if_pos rfl] at h1
      by_cases hbc : a = c
      · subst hbc
        rw [if_pos rfl] at h2 ⊢
        exact pyStrLe_trans h1 h2
      · rw [if_neg hbc] at h2 ⊢
        exact h2
    · rw [if_neg hab] at h1
      have hab' : a < b := by simpa using h1
      by_cases hbc : b = c
      · subst hbc
        rw [if_neg hab]
        simpa using hab'
      · rw [if_neg hbc] at h2
        have hbc' : b < c := by simpa using h2
        have hac : a < c := lt_trans hab' hbc'
        rw [if_neg (ne_of_lt hac)]
        simpa using hac

theorem pyStrLe_antisymm : ∀ {a b : List Char},
    pyStrLe a b = true → pyStrLe b a = true → a = b
  | [], [], _, _ => rfl
  | [], _ :: _, _, h2 => by simp [pyStrLe] at h2
  | _ :: _, [], h1, _ => by simp [pyStrLe] at h1
  | a :: as, b :: bs, h1, h2 => by
    simp only [pyStrLe] at h1 h2
    by_cases hab : a = b
    · subst hab
      rw [if_pos rfl] at h1 h2
      rw [pyStrLe_antisymm h1 h2]
    · rw [if_neg hab] at h1
      rw [if_neg (Ne.symm hab)] at h2
      have h1' : a < b := by simpa using h1
      have h2' : b < a := by simpa using h2
      exact absurd h2' (not_lt_of_lt h1')

theorem pyStrLt_asymm : ∀ {a b : List Char},
    pyStrLt a b = true → pyStrLt b a = true → False
  | [], [], h1, _ => by simp [pyStrLt] at h1
  | [], _ :: _, _, h2 => by simp [pyStrLt] at h2
  | _ :: _, [], h1, _ => by simp [pyStrLt] at h1
  | a :: as, b :: bs, h1, h2 => by
    simp only [pyStrLt] at h1 h2
    by_cases hab : a = b
    · subst hab
      rw [if_pos rfl] at h1 h2
      exact pyStrLt_asymm h1 h2
    · rw [if_neg hab] at h1
      rw [if_neg (Ne.symm hab)] at h2
      have h1' : a < b := by simpa using h1
      have h2' : b < a := by simpa using h2
      exact absurd h2' (not_lt_of_lt h1')

theorem pyStrLt_of_le_ne : ∀ {a b : List Char},
    pyStrLe a b = true → a ≠ b → pyStrLt a b = true
  | [], [], _, hne => absurd rfl hne
  | [], _ :: _, _, _ => by simp [pyStrLt]
  | _ :: _, [], h1, _ => by simp [pyStrLe] at h1
  | a :: as, b :: bs, h1, hne => by
    simp only [pyStrLe] at h1
    simp only [pyStrLt]
    by_cases hab : a = b
    · subst hab
      rw [if_pos rfl] at h1 ⊢
      exact pyStrLt_of_le_ne h1 (fun h => hne (by rw [h]))
    · rw [if_neg hab] at h1 ⊢
      exact h1

instance : IsTotal MigrationFile fileLe :=
  ⟨fun a b => pyStrLe_total a.name.data b.name.data⟩

instance : IsTrans MigrationFile fileLe :=
  ⟨fun _ _ _ h1 h2 => pyStrLe_trans h1 h2⟩

instance : IsAntisymm MigrationFile fileLt :=
  ⟨fun _ _ h1 h2 => absurd (pyStrLt_asymm h1 h2) not_false⟩

instance : DecidableRel fileLt := fun a b =>
  inferInstanceAs (Decidable (pyStrLt a.name.data b.name.data = true))

/-! ### Lemmas about one loop iteration and the outer loop -/

theorem processFile_skip {σ : Type} {exec : String → σ → Option σ}
    {applied : List String} {st : RunState σ} {f : MigrationFile}
    (h : versionOf f.name ∈ applied) :
    processFile exec applied st f = .ok st := by
  simp [processFile, h]

theorem processFile_ok_cases {σ : Type} {exec : String → σ → Option σ}
    {applied : List String} {st st₁ : RunState σ} {f : MigrationFile}
    (h : processFile exec applied st f = .ok st₁) :
    (versionOf f.name ∈ applied ∧ st₁ = st) ∨
    (versionOf f.name ∉ applied ∧ versionOf f.name ∉ st.ledger ∧
      ∃ tr s₁, runStmts exec (splitStatements f.body) st.db = (tr, .ok s₁) ∧
        st₁ = ⟨s₁, st.ledger ++ [versionOf f.name], st.executed ++ tr⟩) := by
  unfold processFile at h
  split at h
  · exact Or.inl ⟨by assumption, (Except.ok.inj h).symm⟩
  · next hv =>
    split at h
    · simp at h
    · next tr s₁ heq =>
      split at h
      · simp at h
      · next hl =>
        exact Or.inr ⟨hv, hl, tr, s₁, heq, (Except.ok.inj h).symm⟩

theorem processFile_error_state {σ : Type} {exec : String → σ → Option σ}
    {applied : List String} {st : RunState σ} {f : MigrationFile}
    {e : MigError σ}
    (h : processFile exec applied st f = .error e) :
    (stateOf (σ := σ) (.error e)).db = st.db ∧
    (stateOf (σ := σ) (.error e)).ledger = st.ledger := by
  unfold processFile at h
  split at h
  · simp at h
  · split at h
    · have he := (Except.error.inj h).symm
      subst he
      exact ⟨rfl, rfl⟩
    · split at h
      · have he := (Except.error.inj h).symm
        subst he
        exact ⟨rfl, rfl⟩
      · simp at h

theorem runFiles_append {σ : Type} {exec : String → σ → Option σ}
    {applied : List String} {l₂ : List MigrationFile} :
    ∀ {l₁ : List MigrationFile} {st st₁ : RunState σ},
    runFiles exec applied l₁ st = .ok st₁ →
    runFiles exec applied (l₁ ++ l₂) st = runFiles exec applied l₂ st₁
  | [], st, st₁, h => by
    have : st = st₁ := Except.ok.inj h
    subst this
    rfl
  | f :: fs, st, st₁, h => by
    simp only [runFiles, List.cons_append] at h ⊢
    cases hp : processFile exec applied st f with
    | error e => rw [hp] at h; simp at h
    | ok st₂ =>
      rw [hp] at h
      exact runFiles_append h

theorem runFiles_ledger_mono {σ : Type} {exec : String → σ → Option σ}
    {applied : List String} :
    ∀ {fs : List MigrationFile} {st st₁ : RunState σ},
    runFiles exec applied fs st = .ok st₁ →
    st.ledger <+: st₁.ledger
  | [], st, st₁, h => by
    have : st = st₁ := Except.ok.inj h
    subst this
    exact List.prefix_refl _
  | f :: fs, st, st₁, h => by
    simp only [runFiles] at h
    cases hp : processFile exec applied st f with
    | error e => rw [hp] at h; simp at h
    | ok st₂ =>
      rw [hp] at h
      have htail : st₂.ledger <+: st₁.ledger := runFiles_ledger_mono h
      rcases processFile_ok_cases hp with ⟨_, rfl⟩ | ⟨_, _, tr, s₁, _, rfl⟩
      · exact htail
      · exact List.IsPrefix.trans (List.prefix_append _ _) htail

theorem runFiles_version_mem {σ : Type} {exec : String → σ → Option σ}
    {applied : List String} :
    ∀ {fs : List MigrationFile} {st st₁ : RunState σ},
    runFiles exec applied fs st = .ok st₁ →
    ∀ f ∈ fs, versionOf f.name ∈ applied ∨ versionOf f.name ∈ st₁.ledger
  | [], _, _, _, f, hf => absurd hf (List.not_mem_nil f)
  | g :: fs, st, st₁, h, f, hf => by
    simp only [runFiles] at h
    cases hp : processFile exec applied st g with
    | error e => rw [hp] at h; simp at h
    | ok st₂ =>
      rw [hp] at h
      rcases List.mem_cons.mp hf with rfl | htail
      · rcases processFile_ok_cases hp with ⟨hv, _⟩ | ⟨_, _, tr, s₁, _, rfl⟩
        · exact Or.inl hv
        · refine Or.inr ?_
          have hmem : versionOf f.name ∈ st.ledger ++ [versionOf f.name] :=
            List.mem_append_right _ (List.mem_singleton_self _)
          exact (runFiles_ledger_mono h).subset hmem
      · exact runFiles_version_mem h f htail

theorem runFiles_skip_all {σ : Type} {exec : String → σ → Option σ}
    {applied : List String} :
    ∀ {fs : List MigrationFile} {st : RunState σ},
    (∀ f ∈ fs, versionOf f.name ∈ applied) →
    runFiles exec applied fs st = .ok st
  | [], _, _ => rfl
  | f :: fs, st, h => by
    simp only [runFiles]
    rw [processFile_skip (h f (List.mem_cons_self f fs))]
    exact runFiles_skip_all (fun g hg => h g (List.mem_cons_of_mem f hg))

theorem runFiles_ledger_mem {σ : Type} {exec : String → σ → Option σ}
    {applied : List String} :
    ∀ {fs : List MigrationFile} {st st₁ : RunState σ},
    runFiles exec applied fs st = .ok st₁ →
    ∀ v ∈ st₁.ledger, v ∈ st.ledger ∨ ∃ g ∈ fs, versionOf g.name = v
  | [], st, st₁, h, v, hv => by
    have : st = st₁ := Except.ok.inj h
    subst this
    exact Or.inl hv
  | f :: fs, st, st₁, h, v, hv => by
    simp only [runFiles] at h
    cases hp : processFile exec applied st f with
    | error e => rw [hp] at h; simp at h
    | ok st₂ =>
      rw [hp] at h
      rcases runFiles_ledger_mem h v hv with hmem | ⟨g, hg, hgv⟩
      · rcases processFile_ok_cases hp with ⟨_, rfl⟩ | ⟨_, _, tr, s₁, _, rfl⟩
        · exact Or.inl hmem
        · rcases List.mem_append.mp hmem with hold | hnew
          · exact Or.inl hold
          · exact Or.inr ⟨f, List.mem_cons_self f fs,
              (List.mem_singleton.mp hnew).symm⟩
      · exact Or.inr ⟨g, List.mem_cons_of_mem f hg, hgv⟩

/-! ### Lemmas about the logging database semantics -/

theorem runStmts_logExec_ok {fails : String → Bool} :
    ∀ {cmds : List String} {s : List String},
    (∀ c ∈ cmds, c ≠ "") → (∀ c ∈ cmds, fails c = false) →
    runStmts (logExec fails) cmds s = (cmds, .ok (s ++ cmds))
  | [], s, _, _ => by simp [runStmts]
  | c :: cs, s, hne, hok => by
    have hc : c ≠ "" := hne c (List.mem_cons_self c cs)
    have hfc : fails c = false := hok c (List.mem_cons_self c cs)
    simp only [runStmts, if_neg hc, logExec, hfc, Bool.false_eq_true,
      if_false]
    rw [runStmts_logExec_ok (fun d hd => hne d (List.mem_cons_of_mem c hd))
        (fun d hd => hok d (List.mem_cons_of_mem c hd))]
    simp

theorem runStmts_logExec_inv {fails : String → Bool} :
    ∀ {cmds tr : List String} {s s₁ : List String},
    (∀ c ∈ cmds, c ≠ "") →
    runStmts (logExec fails) cmds s = (tr, .ok s₁) →
    tr = cmds ∧ s₁ = s ++ cmds ∧ ∀ c ∈ cmds, fails c = false
  | [], tr, s, s₁, _, h => by
    simp only [runStmts, Prod.mk.injEq, StmtsResult.ok.injEq] at h
    obtain ⟨h1, h2⟩ := h
    subst h1
    subst h2
    simp
  | c :: cs, tr, s, s₁, hne, h => by
    have hc : c ≠ "" := hne c (List.mem_cons_self c cs)
    simp only [runStmts, if_neg hc] at h
    cases hfc : fails c with
    | true => simp [logExec, hfc] at h
    | false =>
      simp only [logExec, hfc, Bool.false_eq_true, if_false] at h
      cases hr : runStmts (logExec fails) cs (s ++ [c]) with
      | mk tr₁ r =>
        rw [hr] at h
        simp only [Prod.mk.injEq] at h
        obtain ⟨htr, hrr⟩ := h
        subst htr
        cases r with
        | failed d => simp at hrr
        | ok s₂ =>
          have hs₂ : s₂ = s₁ := by simpa using hrr
          subst hs₂
          obtain ⟨htr₁, hs₁, hpass⟩ :=
            runStmts_logExec_inv
              (fun d hd => hne d (List.mem_cons_of_mem c hd)) hr
          subst htr₁
          refine ⟨rfl, by simp [hs₁], ?_⟩
          intro d hd
          rcases List.mem_cons.mp hd with rfl | hdcs
          · exact hfc
          · exact hpass d hdcs

theorem runFiles_logExec_char {fails : String → Bool} {applied : List String} :
    ∀ (fs : List MigrationFile) (st : RunState (List String)),
    ∃ newFiles : List MigrationFile,
      (stateOf (runFiles (logExec fails) applied fs st)).ledger
          = st.ledger ++ newFiles.map (fun f => versionOf f.name) ∧
      (stateOf (runFiles (logExec fails) applied fs st)).db
          = st.db ++ newFiles.flatMap (fun f => splitStatements f.body) ∧
      ∀ f ∈ newFiles, f ∈ fs ∧ versionOf f.name ∉ applied ∧
        ∀ c ∈ splitStatements f.body, fails c = false
  | [], st => ⟨[], by simp [runFiles, stateOf]⟩
  | f :: fs, st => by
    cases hp : processFile (logExec fails) applied st f with
    | error e =>
      have hstate := processFile_error_state hp
      have hrun : runFiles (logExec fails) applied (f :: fs) st = .error e := by
        simp only [runFiles, hp]
      refine ⟨[], ?_, ?_, by simp⟩
      · rw [hrun]
        simpa using hstate.2
      · rw [hrun]
        simpa using hstate.1
    | ok st₁ =>
      have hrun : runFiles (logExec fails) applied (f :: fs) st
          = runFiles (logExec fails) applied fs st₁ := by
        simp only [runFiles, hp]
      obtain ⟨new, hledger, hdb, hmem⟩ := runFiles_logExec_char fs st₁
      rcases processFile_ok_cases hp with ⟨hv, rfl⟩ | ⟨hv, hl, tr, s₁, hr, rfl⟩
      · refine ⟨new, by rw [hrun]; exact hledger, by rw [hrun]; exact hdb,
          fun g hg => ⟨List.mem_cons_of_mem f (hmem g hg).1,
            (hmem g hg).2.1, (hmem g hg).2.2⟩⟩
      · have hnn : ∀ c ∈ splitStatements f.body, c ≠ "" :=
          fun c hc => splitStatements_ne_empty hc
        obtain ⟨htr, hs₁, hpass⟩ := runStmts_logExec_inv hnn hr
        refine ⟨f :: new, ?_, ?_, ?_⟩
        · rw [hrun, hledger]
          simp
        · rw [hrun, hdb]
          subst hs₁
          simp
        · intro g hg
          rcases List.mem_cons.mp hg with rfl | hgnew
          · exact ⟨List.mem_cons_self g fs, hv, hpass⟩
          · exact ⟨List.mem_cons_of_mem f (hmem g hgnew).1,
              (hmem g hgnew).2.1, (hmem g hgnew).2.2⟩

/-! ### Claims -/

/-- C1: `apply_migrations` is idempotent: after a successful run, a
second run over the same files skips every version (each is in the
ledger), executes zero statements, and completes successfully with the
database and ledger unchanged; in particular, with ledger `{001, 002}`
and files `001_*.sql`, `002_*.sql`, `003_*.sql`, only the statements
of `003_*.sql` execute. -/
theorem claim_C1_idempotent :
    (∀ (σ : Type) (exec : String → σ → Option σ)
        (listing : List MigrationFile) (init : σ)
        (ledger₀ : List String) (st₁ : RunState σ),
      apply_migrations exec listing init ledger₀ = .ok st₁ →
      apply_migrations exec listing st₁.db st₁.ledger =
        .ok ⟨st₁.db, st₁.ledger, []⟩) ∧
    apply_migrations (logExec (fun _ => false))
        [⟨"001_init.sql", "A1;A2"⟩, ⟨"002_next.sql", "B1;"⟩,
         ⟨"003_more.sql", "C1;C2;"⟩] [] ["001", "002"]
      = .ok ⟨["C1", "C2"], ["001", "002", "003"], ["C1", "C2"]⟩ := by
  constructor
  · intro σ exec listing init ledger₀ st₁ h1
    unfold apply_migrations at h1 ⊢
    have hpre : ledger₀ <+: st₁.ledger := runFiles_ledger_mono h1
    have hall : ∀ f ∈ sortFiles listing, versionOf f.name ∈ st₁.ledger := by
      intro f hf
      rcases runFiles_version_mem h1 f hf with hin | hin
      · exact hpre.subset hin
      · exact hin
    exact runFiles_skip_all hall
  · decide

theorem claim_C1_idempotent_witness :
    apply_migrations (logExec (fun _ => false))
        [⟨"001_init.sql", "A1;A2"⟩, ⟨"002_next.sql", "B1;"⟩,
         ⟨"003_more.sql", "C1;C2;"⟩] [] ["001", "002"]
      = .ok ⟨["C1", "C2"], ["001", "002", "003"], ["C1", "C2"]⟩ ∧
    apply_migrations (logExec (fun _ => false))
        [⟨"001_init.sql", "A1;A2"⟩, ⟨"002_next.sql", "B1;"⟩,
         ⟨"003_more.sql", "C1;C2;"⟩] ["C1", "C2"] ["001", "002", "003"]
      = .ok ⟨["C1", "C2"], ["001", "002", "003"], []⟩ :=
  ⟨by decide,
   claim_C1_idempotent.1 (List String) (logExec (fun _ => false))
     [⟨"001_init.sql", "A1;A2"⟩, ⟨"002_next.sql", "B1;"⟩,
      ⟨"003_more.sql", "C1;C2;"⟩] [] ["001", "002"]
     ⟨["C1", "C2"], ["001", "002", "003"], ["C1", "C2"]⟩ (by decide)⟩

/-- C3: ledger invariant: after any run (successful or aborted) the
ledger is the initial ledger extended by exactly the versions of the
scripts all of whose statements executed without error, and the
committed database content is extended by exactly the full statement
lists of those same scripts — the ledger row and the script's
statements commit together, so no partially applied script is ever
recorded. -/
theorem claim_C3_ledger_invariant (fails : String → Bool)
    (listing : List MigrationFile) (init ledger₀ : List String) :
    ∃ newFiles : List MigrationFile,
      (stateOf (apply_migrations (logExec fails) listing init ledger₀)).ledger
          = ledger₀ ++ newFiles.map (fun f => versionOf f.name) ∧
      (stateOf (apply_migrations (logExec fails) listing init ledger₀)).db
          = init ++ newFiles.flatMap (fun f => splitStatements f.body) ∧
      ∀ f ∈ newFiles, f ∈ sortFiles listing ∧ versionOf f.name ∉ ledger₀ ∧
        ∀ c ∈ splitStatements f.body, fails c = false :=
  runFiles_logExec_char (sortFiles listing) ⟨init, ledger₀, []⟩

/-- C5: a script whose body splits into zero statements (only
whitespace or empty fragments) executes nothing, succeeds, and still
gets a ledger row for its version. -/
theorem claim_C5_empty_script {σ : Type} (exec : String → σ → Option σ)
    (applied : List String) (st : RunState σ) (f : MigrationFile)
    (hempty : splitStatements f.body = [])
    (hv : versionOf f.name ∉ applied)
    (hl : versionOf f.name ∉ st.ledger) :
    processFile exec applied st f =
      .ok ⟨st.db, st.ledger ++ [versionOf f.name], st.executed⟩ := by
  unfold processFile
  rw [if_neg hv, hempty]
  simp [runStmts, hl]

theorem claim_C5_empty_script_witness :
    splitStatements "  ; ;\n" = [] ∧
    versionOf "004_noop.sql" ∉ ([] : List String) ∧
    processFile (logExec (fun _ => false)) []
        (⟨[], [], []⟩ : RunState (List String)) ⟨"004_noop.sql", "  ; ;\n"⟩ =
      .ok ⟨[], ["004"], []⟩ :=
  ⟨by decide, by decide,
   claim_C5_empty_script (logExec (fun _ => false)) []
     ⟨[], [], []⟩ ⟨"004_noop.sql", "  ; ;\n"⟩
     (by decide) (by decide) (by decide)⟩

/-- C6: when the directory holds no `.sql` files the run is a
successful no-op: no statements execute and the ledger is unchanged. -/
theorem claim_C6_no_files {σ : Type} (exec : String → σ → Option σ)
    (listing : List MigrationFile) (init : σ) (ledger₀ : List String)
    (h : listing.filter isSqlFile = []) :
    apply_migrations exec listing init ledger₀ = .ok ⟨init, ledger₀, []⟩ := by
  unfold apply_migrations sortFiles
  rw [h]
  rfl

theorem claim_C6_no_files_witness :
    ([⟨"README.md", "notes"⟩] : List MigrationFile).filter isSqlFile = [] ∧
    apply_migrations (logExec (fun _ => false)) [⟨"README.md", "notes"⟩]
        [] ["001"] = .ok ⟨[], ["001"], []⟩ :=
  ⟨by decide,
   claim_C6_no_files (logExec (fun _ => false)) [⟨"README.md", "notes"⟩]
     [] ["001"] (by decide)⟩

/-- C7: the version token of a migration filename is exactly the
substring preceding the first underscore, and this token is what the
skip check consults. -/
theorem claim_C7_version_token :
    (∀ name : String,
        versionOf name = String.mk (name.data.takeWhile (fun c => c != '_'))) ∧
    (∀ (σ : Type) (exec : String → σ → Option σ) (applied : List String)
        (st : RunState σ) (f : MigrationFile),
      versionOf f.name ∈ applied → processFile exec applied st f = .ok st) := by
  constructor
  · intro name
    unfold versionOf
    rw [pySplit_headD]
  · intro σ exec applied st f h
    exact processFile_skip h

theorem claim_C7_version_token_witness :
    versionOf "003_add_column.sql"
        = String.mk ("003_add_column.sql".data.takeWhile (fun c => c != '_')) ∧
    versionOf "003_add_column.sql" ∈ ["003"] ∧
    processFile (logExec (fun _ => false)) ["003"]
        (⟨[], [], []⟩ : RunState (List String))
        ⟨"003_add_column.sql", "X;"⟩ = .ok ⟨[], [], []⟩ :=
  ⟨claim_C7_version_token.1 "003_add_column.sql", by decide,
   claim_C7_version_token.2 (List String) (logExec (fun _ => false)) ["003"]
     ⟨[], [], []⟩ ⟨"003_add_column.sql", "X;"⟩ (by decide)⟩

/-- C8: the `__main__` block exits with status 0 exactly when
`apply_migrations` returns without raising, and with a non-zero status
when it raises. -/
theorem claim_C8_exit_status {σ : Type} (exec : String → σ → Option σ)
    (listing : List MigrationFile) (init : σ) (ledger₀ : List String) :
    (∀ st, apply_migrations exec listing init ledger₀ = .ok st →
      migrateMainExit (apply_migrations exec listing init ledger₀) = 0) ∧
    (∀ e, apply_migrations exec listing init ledger₀ = .error e →
      migrateMainExit (apply_migrations exec listing init ledger₀) ≠ 0) := by
  constructor
  · intro st h
    rw [h]
    rfl
  · intro e h
    rw [h]
    simp [migrateMainExit]

theorem claim_C8_exit_status_witness :
    migrateMainExit (apply_migrations (logExec (fun _ => false))
        [⟨"001_init.sql", "A;"⟩] [] []) = 0 ∧
    migrateMainExit (apply_migrations (logExec (fun c => c == "B"))
        [⟨"001_init.sql", "B;"⟩] [] []) ≠ 0 :=
  ⟨(claim_C8_exit_status (logExec (fun _ => false))
      [⟨"001_init.sql", "A;"⟩] [] []).1 ⟨["A"], ["001"], ["A"]⟩ (by decide),
   (claim_C8_exit_status (logExec (fun c => c == "B"))
      [⟨"001_init.sql", "B;"⟩] [] []).2
     (.stmtFailed "001_init.sql" "B" ⟨[], [], ["B"]⟩) (by decide)⟩

/-- C9: every admin route handler redirects to the login page and
issues no database operation whenever the session lacks a `user_id` or
its `is_admin` flag is not truthy. -/
theorem claim_C9_admin_gate (s : Session) (month year : Option Nat)
    (isPost : Bool) (unit_number pin_code : Option String) (existing : Bool)
    (h : s.user_id = none ∨ truthy s.is_admin = false) :
    admin_dashboard s = ⟨[], .redirect "main.login"⟩ ∧
    manage_users s = ⟨[], .redirect "main.login"⟩ ∧
    admin_history s month year = ⟨[], .redirect "main.login"⟩ ∧
    unit_pincode s isPost unit_number pin_code existing =
      ⟨[], .redirect "main.login"⟩ ∧
    download_readings s = ⟨[], .redirect "main.login"⟩ := by
  have hna : notAdmin s = true := by
    rcases h with h | h
    · simp [notAdmin, h]
    · simp [notAdmin, h]
  exact ⟨by simp [admin_dashboard, hna], by simp [manage_users, hna],
    by simp [admin_history, hna], by simp [unit_pincode, hna],
    by simp [download_readings, hna]⟩

theorem claim_C9_admin_gate_witness :
    ((⟨none, some true⟩ : Session).user_id = none ∨
      truthy (⟨none, some true⟩ : Session).is_admin = false) ∧
    admin_dashboard ⟨none, some true⟩ = ⟨[], .redirect "main.login"⟩ ∧
    manage_users ⟨none, some true⟩ = ⟨[], .redirect "main.login"⟩ ∧
    admin_history ⟨none, some true⟩ (some 5) (some 2024) =
      ⟨[], .redirect "main.login"⟩ ∧
    unit_pincode ⟨none, some true⟩ true (some "12") (some "9999") false =
      ⟨[], .redirect "main.login"⟩ ∧
    download_readings ⟨none, some true⟩ = ⟨[], .redirect "main.login"⟩ :=
  ⟨Or.inl rfl,
   claim_C9_admin_gate ⟨none, some true⟩ (some 5) (some 2024) true
     (some "12") (some "9999") false (Or.inl rfl)⟩

/-- C10: a filename without an underscore yields the whole filename,
extension included, as its version token; such a file is skipped or
applied like any other rather than rejected. -/
theorem claim_C10_no_underscore :
    (∀ name : String, '_' ∉ name.data → versionOf name = name) ∧
    processFile (logExec (fun _ => false)) ["001.sql"]
        (⟨[], ["001.sql"], []⟩ : RunState (List String)) ⟨"001.sql", "A;"⟩ =
      .ok ⟨[], ["001.sql"], []⟩ ∧
    apply_migrations (logExec (fun _ => false)) [⟨"001.sql", "A;"⟩] [] [] =
      .ok ⟨["A"], ["001.sql"], ["A"]⟩ := by
  refine ⟨?_, by decide, by decide⟩
  intro name h
  unfold versionOf
  rw [pySplit_headD]
  have hall : name.data.takeWhile (fun c => c != '_') = name.data := by
    apply List.takeWhile_eq_self_iff.mpr
    intro c hc
    have hcu : c ≠ '_' := fun hcu => h (hcu ▸ hc)
    simpa using hcu
  rw [hall, stringMk_data]

theorem claim_C10_no_underscore_witness :
    '_' ∉ "001.sql".data ∧ versionOf "001.sql" = "001.sql" :=
  ⟨by decide, claim_C10_no_underscore.1 "001.sql" (by decide)⟩

/-- C2: when a script's statement list is `[S1, S2, S3]` and `S2`
fails, the whole run aborts with that statement's error: the database
is rolled back to its state before the script (S1's effect is undone),
the ledger holds no row for the script's version, the trace ends with
`[S1, S2]` so S3 and every later script are never attempted. -/
theorem claim_C2_failure_rollback {σ : Type} (exec : String → σ → Option σ)
    (listing : List MigrationFile) (init : σ) (ledger₀ : List String)
    (pre post : List MigrationFile) (f : MigrationFile)
    (S₁ S₂ S₃ : String) (st : RunState σ) (d₁ : σ)
    (hsort : sortFiles listing = pre ++ f :: post)
    (hpre : runFiles exec ledger₀ pre ⟨init, ledger₀, []⟩ = .ok st)
    (hv : versionOf f.name ∉ ledger₀)
    (hdist : ∀ g ∈ pre, versionOf g.name ≠ versionOf f.name)
    (hsplit : splitStatements f.body = [S₁, S₂, S₃])
    (h₁ : exec S₁ st.db = some d₁)
    (h₂ : exec S₂ d₁ = none) :
    apply_migrations exec listing init ledger₀ =
      .error (.stmtFailed f.name S₂
        ⟨st.db, st.ledger, st.executed ++ [S₁, S₂]⟩) ∧
    versionOf f.name ∉ st.ledger := by
  have hS₁ : S₁ ≠ "" :=
    splitStatements_ne_empty (b := f.body)
      (by rw [hsplit]; exact List.mem_cons_self S₁ [S₂, S₃])
  have hS₂ : S₂ ≠ "" :=
    splitStatements_ne_empty (b := f.body) (by rw [hsplit]; simp)
  have hstmts : runStmts exec (splitStatements f.body) st.db =
      ([S₁, S₂], .failed S₂) := by
    rw [hsplit]
    simp only [runStmts, if_neg hS₁, if_neg hS₂, h₁, h₂]
  have hnl : versionOf f.name ∉ st.ledger := by
    intro hmem
    rcases runFiles_ledger_mem hpre _ hmem with hin | ⟨g, hg, hgv⟩
    · exact hv hin
    · exact hdist g hg hgv
  have hpf : processFile exec ledger₀ st f =
      .error (.stmtFailed f.name S₂
        ⟨st.db, st.ledger, st.executed ++ [S₁, S₂]⟩) := by
    unfold processFile
    rw [if_neg hv, hstmts]
  refine ⟨?_, hnl⟩
  unfold apply_migrations
  rw [hsort, runFiles_append hpre]
  simp only [runFiles, hpf]

theorem claim_C2_failure_rollback_witness :
    sortFiles [⟨"001_init.sql", "A1;"⟩, ⟨"002_next.sql", "B1;B2;B3"⟩,
        ⟨"003_more.sql", "C1;"⟩]
      = [⟨"001_init.sql", "A1;"⟩] ++ ⟨"002_next.sql", "B1;B2;B3"⟩ ::
          [⟨"003_more.sql", "C1;"⟩] ∧
    apply_migrations (logExec (fun c => c == "B2"))
        [⟨"001_init.sql", "A1;"⟩, ⟨"002_next.sql", "B1;B2;B3"⟩,
         ⟨"003_more.sql", "C1;"⟩] [] [] =
      .error (.stmtFailed "002_next.sql" "B2"
        ⟨["A1"], ["001"], ["A1", "B1", "B2"]⟩) ∧
    versionOf "002_next.sql" ∉ (["001"] : List String) :=
  ⟨by decide,
   (claim_C2_failure_rollback (logExec (fun c => c == "B2"))
     [⟨"001_init.sql", "A1;"⟩, ⟨"002_next.sql", "B1;B2;B3"⟩,
      ⟨"003_more.sql", "C1;"⟩] [] []
     [⟨"001_init.sql", "A1;"⟩] [⟨"003_more.sql", "C1;"⟩]
     ⟨"002_next.sql", "B1;B2;B3"⟩ "B1" "B2" "B3"
     ⟨["A1"], ["001"], ["A1"]⟩ ["A1", "B1"]
     (by decide) (by decide) (by decide) (by decide) (by decide)
     (by decide) (by decide)).1,
   (claim_C2_failure_rollback (logExec (fun c => c == "B2"))
     [⟨"001_init.sql", "A1;"⟩, ⟨"002_next.sql", "B1;B2;B3"⟩,
      ⟨"003_more.sql", "C1;"⟩] [] []
     [⟨"001_init.sql", "A1;"⟩] [⟨"003_more.sql", "C1;"⟩]
     ⟨"002_next.sql", "B1;B2;B3"⟩ "B1" "B2" "B3"
     ⟨["A1"], ["001"], ["A1"]⟩ ["A1", "B1"]
     (by decide) (by decide) (by decide) (by decide) (by decide)
     (by decide) (by decide)).2⟩

/-- C4: the runner processes the `.sql` files in strictly ascending
lexical filename order, and the outcome of a run is independent of the
order in which the filesystem lists the directory. -/
theorem claim_C4_lexical_order {σ : Type} (exec : String → σ → Option σ)
    (listing listing₂ : List MigrationFile) (init : σ)
    (ledger₀ : List String)
    (hperm : listing.Perm listing₂)
    (hnd : (listing.map MigrationFile.name).Nodup) :
    (sortFiles listing).Pairwise fileLt ∧
    apply_migrations exec listing init ledger₀ =
      apply_migrations exec listing₂ init ledger₀ := by
  have sortedLt : ∀ l : List MigrationFile,
      ((l.map MigrationFile.name).Nodup) →
      (sortFiles l).Pairwise fileLt := by
    intro l hl
    have hndf : ((l.filter isSqlFile).map MigrationFile.name).Nodup :=
      hl.sublist ((List.filter_sublist (p := isSqlFile) l).map
        MigrationFile.name)
    have hsorted : (sortFiles l).Pairwise fileLe :=
      List.sorted_insertionSort fileLe (l.filter isSqlFile)
    have hpf : (sortFiles l).Perm (l.filter isSqlFile) :=
      List.perm_insertionSort fileLe (l.filter isSqlFile)
    have hnds : ((sortFiles l).map MigrationFile.name).Nodup :=
      ((hpf.map MigrationFile.name).nodup_iff).mpr hndf
    have hne : (sortFiles l).Pairwise (fun a b => a.name ≠ b.name) :=
      List.pairwise_map.mp hnds
    exact (hsorted.and hne).imp
      (fun hab => pyStrLt_of_le_ne hab.1 (string_data_ne hab.2))
  have hlt₁ : (sortFiles listing).Pairwise fileLt := sortedLt listing hnd
  have hnd₂ : (listing₂.map MigrationFile.name).Nodup :=
    ((hperm.map MigrationFile.name).nodup_iff).mp hnd
  have hlt₂ : (sortFiles listing₂).Pairwise fileLt := sortedLt listing₂ hnd₂
  have hperms : (sortFiles listing).Perm (sortFiles listing₂) :=
    (List.perm_insertionSort fileLe (listing.filter isSqlFile)).trans
      ((hperm.filter isSqlFile).trans
        (List.perm_insertionSort fileLe (listing₂.filter isSqlFile)).symm)
  have heq : sortFiles listing = sortFiles listing₂ :=
    List.eq_of_perm_of_sorted hperms hlt₁ hlt₂
  refine ⟨hlt₁, ?_⟩
  unfold apply_migrations
  rw [heq]

theorem claim_C4_lexical_order_witness :
    ([⟨"003_more.sql", "C1;"⟩, ⟨"001_init.sql", "A1;"⟩,
        ⟨"002_next.sql", "B1;"⟩] : List MigrationFile).Perm
      [⟨"001_init.sql", "A1;"⟩, ⟨"002_next.sql", "B1;"⟩,
        ⟨"003_more.sql", "C1;"⟩] ∧
    (sortFiles [⟨"003_more.sql", "C1;"⟩, ⟨"001_init.sql", "A1;"⟩,
        ⟨"002_next.sql", "B1;"⟩]).Pairwise fileLt ∧
    apply_migrations (logExec (fun _ => false))
        [⟨"003_more.sql", "C1;"⟩, ⟨"001_init.sql", "A1;"⟩,
         ⟨"002_next.sql", "B1;"⟩] [] [] =
      apply_migrations (logExec (fun _ => false))
        [⟨"001_init.sql", "A1;"⟩, ⟨"002_next.sql", "B1;"⟩,
         ⟨"003_more.sql", "C1;"⟩] [] [] :=
  ⟨by decide,
   claim_C4_lexical_order (logExec (fun _ => false))
     [⟨"003_more.sql", "C1;"⟩, ⟨"001_init.sql", "A1;"⟩,
      ⟨"002_next.sql", "B1;"⟩]
     [⟨"001_init.sql", "A1;"⟩, ⟨"002_next.sql", "B1;"⟩,
      ⟨"003_more.sql", "C1;"⟩] [] [] (by decide) (by decide)⟩

theorem claim_C3_ledger_invariant_witness :
    ∃ newFiles : List MigrationFile,
      (stateOf (apply_migrations (logExec (fun _ => false))
          [⟨"001_init.sql", "A;"⟩] [] [])).ledger
        = [] ++ newFiles.map (fun f => versionOf f.name) ∧
      (stateOf (apply_migrations (logExec (fun _ => false))
          [⟨"001_init.sql", "A;"⟩] [] [])).db
        = [] ++ newFiles.flatMap (fun f => splitStatements f.body) ∧
      ∀ f ∈ newFiles, f ∈ sortFiles [⟨"001_init.sql", "A;"⟩] ∧
        versionOf f.name ∉ ([] : List String) ∧
        ∀ c ∈ splitStatements f.body, (fun _ => false : String → Bool) c = false :=
  claim_C3_ledger_invariant (fun _ => false) [⟨"001_init.sql", "A;"⟩] [] []
